import Mathlib

/-!
Verification of the 2100-AAA workflow frontend handlers.

Shallow embedding of the Next.js API route handlers of the repository
(`pages/api/v1/...`, `utils/server/run-workflow.js`) together with the Prisma
data model (`schema.prisma`: models `Task`, `Agent`, enum `Status`), and proofs
of the behavioural claims about them.

The JS builtins `JSON.stringify` / `JSON.parse`, which the handlers use to move
`logs` and `output` between their structured form and the `String` columns of
the `Task` table, are modelled by an executable writer (`Json.stringify`) and an
executable fuelled reader (`Json.parse`) over an inductive `Json` value type.
JSON numbers are modelled as exact integers (IEEE-754 float formatting is
outside the embedding); strings are escaped the way `JSON.stringify` escapes
them (`"`, `\`, the named control escapes, and `\u00XX` for the remaining
control characters).
-/

namespace AAA

/-- A JSON value. Numbers are exact integers (the float side of JS numbers is
not modelled); objects keep their fields in order, duplicates included, which
is what a round-trip through text preserves. -/
inductive Json where
  | null
  | bool (b : Bool)
  | num (n : Int)
  | str (s : String)
  | arr (items : List Json)
  | obj (fields : List (String × Json))
deriving Repr

/-! ## Writing (the model of `JSON.stringify`) -/

/-- The decimal digit character for `k` (meaningful for `k < 10`). -/
def digChar (k : Nat) : Char := Char.ofNat (48 + k)

/-- Decimal digit run of a natural number, most significant digit first. -/
def natChars (n : Nat) : List Char :=
  if _h : n < 10 then [digChar n]
  else natChars (n / 10) ++ [digChar (n % 10)]
termination_by n
decreasing_by exact Nat.div_lt_self (by omega) (by omega)

/-- Characters of an integer: a minus sign when negative, then the digits. -/
def intChars (i : Int) : List Char :=
  if i < 0 then '-' :: natChars i.natAbs else natChars i.natAbs

/-- The lower-case hexadecimal digit character for `k < 16`. -/
def hexChar (k : Nat) : Char :=
  if k < 10 then Char.ofNat (48 + k) else Char.ofNat (87 + k)

/-- A two-character backslash escape. -/
def bsl (c : Char) : List Char := ['\\', c]

/-- How `JSON.stringify` escapes one character inside a string literal:
`"` and `\` get a backslash, the five named control characters use their
short escapes, every other control character becomes `\u00XX`, and everything
else is written as itself. -/
def escape1 (c : Char) : List Char :=
  if c == '"' || c == '\\' then bsl c
  else if c == '\n' then bsl 'n'
  else if c == '\r' then bsl 'r'
  else if c == '\t' then bsl 't'
  else if c == '\x08' then bsl 'b'
  else if c == '\x0c' then bsl 'f'
  else if c.toNat < 32 then
    bsl 'u' ++ ['0', '0', hexChar (c.toNat / 16), hexChar (c.toNat % 16)]
  else [c]

/-- A string literal as `JSON.stringify` writes it: quoted and escaped. -/
def strChars (s : String) : List Char :=
  '"' :: (s.data.flatMap escape1 ++ ['"'])

mutual
/-- The characters `JSON.stringify` produces for a value (no whitespace). -/
def Json.writeChars : Json → List Char
  | .null => 'n' :: ['u', 'l', 'l']
  | .bool true => 't' :: ['r', 'u', 'e']
  | .bool false => 'f' :: ['a', 'l', 's', 'e']
  | .num i => intChars i
  | .str s => strChars s
  | .arr items => '[' :: (Json.writeItems items ++ [']'])
  | .obj fields => '{' :: (Json.writeFields fields ++ ['}'])

/-- Comma-separated array items. -/
def Json.writeItems : List Json → List Char
  | [] => []
  | [x] => Json.writeChars x
  | x :: y :: t => Json.writeChars x ++ ',' :: Json.writeItems (y :: t)

/-- Comma-separated `"key":value` object fields. -/
def Json.writeFields : List (String × Json) → List Char
  | [] => []
  | [(k, v)] => strChars k ++ ':' :: Json.writeChars v
  | (k, v) :: y :: t =>
      strChars k ++ ':' :: (Json.writeChars v ++ ',' :: Json.writeFields (y :: t))
end

/-- The model of `JSON.stringify`. -/
def Json.stringify (j : Json) : String := String.mk (Json.writeChars j)

/-! ## Reading (the model of `JSON.parse`) -/

/-- JSON insignificant whitespace. -/
def isWs (c : Char) : Bool := c == ' ' || c == '\t' || c == '\n' || c == '\r'

/-- Drop leading insignificant whitespace. -/
def dropWs : List Char → List Char
  | [] => []
  | c :: t => if isWs c then dropWs t else c :: t

/-- Decimal digit test. -/
def isDig (c : Char) : Bool := 48 ≤ c.toNat && c.toNat ≤ 57

/-- Split off the longest leading run of decimal digits. -/
def spanDigits : List Char → List Char × List Char
  | [] => ([], [])
  | c :: t =>
    if isDig c then
      let (ds, r) := spanDigits t
      (c :: ds, r)
    else ([], c :: t)

/-- Numeric value of a digit run. -/
def digitsVal (ds : List Char) : Nat :=
  ds.foldl (fun a c => a * 10 + (c.toNat - 48)) 0

/-- Read a nonempty digit run as a natural number. -/
def readNat (cs : List Char) : Option (Nat × List Char) :=
  match spanDigits cs with
  | ([], _) => none
  | (ds, r) => some (digitsVal ds, r)

/-- Read an integer literal (optional minus sign, then digits). -/
def readInt (cs : List Char) : Option (Int × List Char) :=
  match cs with
  | '-' :: t => (readNat t).map fun p => (-(p.1 : Int), p.2)
  | _ => (readNat cs).map fun p => ((p.1 : Int), p.2)

/-- Value of a hexadecimal digit character. -/
def hexVal (c : Char) : Option Nat :=
  if 48 ≤ c.toNat && c.toNat ≤ 57 then some (c.toNat - 48)
  else if 97 ≤ c.toNat && c.toNat ≤ 102 then some (c.toNat - 87)
  else if 65 ≤ c.toNat && c.toNat ≤ 70 then some (c.toNat - 55)
  else none

/-- The character named by a short escape. -/
def unescape1 (c : Char) : Option Char :=
  if c == 'n' then some '\n'
  else if c == 't' then some '\t'
  else if c == 'r' then some '\r'
  else if c == 'b' then some '\x08'
  else if c == 'f' then some '\x0c'
  else if c == '"' || c == '\\' || c == '/' then some c
  else none

/-- Read the body of a string literal (after the opening quote), unescaping. -/
def readStr (acc : List Char) : List Char → Option (String × List Char)
  | '"' :: r => some (String.mk acc.reverse, r)
  | '\\' :: 'u' :: h1 :: h2 :: h3 :: h4 :: r =>
    match hexVal h1, hexVal h2, hexVal h3, hexVal h4 with
    | some a, some b, some c, some d =>
        readStr (Char.ofNat (((a * 16 + b) * 16 + c) * 16 + d) :: acc) r
    | _, _, _, _ => none
  | '\\' :: e :: r =>
    match unescape1 e with
    | some c => readStr (c :: acc) r
    | none => none
  | c :: r => readStr (c :: acc) r
  | [] => none

mutual
/-- Read one JSON value (fuelled; `fuel` larger than the input length always
suffices). -/
def readValue : Nat → List Char → Option (Json × List Char)
  | 0, _ => none
  | fuel + 1, cs =>
    match dropWs cs with
    | 'n' :: 'u' :: 'l' :: 'l' :: r => some (.null, r)
    | 't' :: 'r' :: 'u' :: 'e' :: r => some (.bool true, r)
    | 'f' :: 'a' :: 'l' :: 's' :: 'e' :: r => some (.bool false, r)
    | '"' :: r => (readStr [] r).map fun p => (.str p.1, p.2)
    | '[' :: r =>
      (match dropWs r with
       | ']' :: r1 => some (.arr [], r1)
       | cs1 => (readItems fuel cs1).map fun p => (.arr p.1, p.2))
    | '{' :: r =>
      (match dropWs r with
       | '}' :: r1 => some (.obj [], r1)
       | cs1 => (readFields fuel cs1).map fun p => (.obj p.1, p.2))
    | c :: r =>
      if c == '-' || isDig c then (readInt (c :: r)).map fun p => (.num p.1, p.2)
      else none
    | [] => none

/-- Read one-or-more comma-separated array items up to the closing bracket. -/
def readItems : Nat → List Char → Option (List Json × List Char)
  | 0, _ => none
  | fuel + 1, cs =>
    match readValue fuel cs with
    | none => none
    | some (v, r) =>
      match dropWs r with
      | ',' :: r1 =>
        (readItems fuel r1).map fun p => (v :: p.1, p.2)
      | ']' :: r1 => some ([v], r1)
      | _ => none

/-- Read one-or-more comma-separated object fields up to the closing brace. -/
def readFields : Nat → List Char → Option (List (String × Json) × List Char)
  | 0, _ => none
  | fuel + 1, cs =>
    match dropWs cs with
    | '"' :: r =>
      (match readStr [] r with
       | none => none
       | some (k, r1) =>
         match dropWs r1 with
         | ':' :: r2 =>
           (match readValue fuel r2 with
            | none => none
            | some (v, r3) =>
              match dropWs r3 with
              | ',' :: r4 =>
                (readFields fuel r4).map fun p => ((k, v) :: p.1, p.2)
              | '}' :: r4 => some ([(k, v)], r4)
              | _ => none)
         | _ => none)
    | _ => none
end

/-- The model of `JSON.parse`: `none` models the thrown `SyntaxError`. -/
def Json.parse (s : String) : Option Json :=
  match readValue (s.data.length + 1) s.data with
  | some (j, r) => if (dropWs r).isEmpty then some j else none
  | none => none

/-! ## Round-trip: `Json.parse` inverts `Json.stringify`

Digit lemmas first, then the string-escape inverse, then the mutual induction
over the grammar. -/

/-- `true` when the input cannot extend a digit run: empty or headed by a
non-digit. Every context following a rendered value (`,`, `]`, `}`, end of
input) qualifies. -/
def headNotDig : List Char → Bool
  | [] => true
  | c :: _ => !isDig c

theorem digChar_toNat (k : Nat) (h : k < 10) : (digChar k).toNat = 48 + k := by
  interval_cases k <;> decide

theorem isDig_digChar (k : Nat) (h : k < 10) : isDig (digChar k) = true := by
  interval_cases k <;> decide

theorem natChars_ne_nil (n : Nat) : natChars n ≠ [] := by
  rw [natChars]
  split <;> simp

theorem natChars_all_dig (n : Nat) : ∀ c ∈ natChars n, isDig c = true := by
  induction n using Nat.strong_induction_on with
  | _ n ih =>
    rw [natChars]
    split
    · intro c hc
      rw [List.mem_singleton] at hc
      subst hc
      exact isDig_digChar n (by omega)
    · intro c hc
      rw [List.mem_append] at hc
      rcases hc with hc | hc
      · exact ih (n / 10) (Nat.div_lt_self (by omega) (by omega)) c hc
      · rw [List.mem_singleton] at hc
        subst hc
        exact isDig_digChar _ (Nat.mod_lt _ (by omega))

theorem digitsVal_append_digit (ds : List Char) (c : Char) :
    digitsVal (ds ++ [c]) = digitsVal ds * 10 + (c.toNat - 48) := by
  simp [digitsVal, List.foldl_append]

theorem digitsVal_natChars (n : Nat) : digitsVal (natChars n) = n := by
  induction n using Nat.strong_induction_on with
  | _ n ih =>
    rw [natChars]
    split
    · rename_i h
      simp [digitsVal, digChar_toNat n (by omega)]
    · rename_i h
      rw [digitsVal_append_digit, ih (n / 10) (Nat.div_lt_self (by omega) (by omega)),
        digChar_toNat _ (Nat.mod_lt _ (by omega))]
      omega

theorem spanDigits_stop {cs : List Char} (h : headNotDig cs = true) :
    spanDigits cs = ([], cs) := by
  match cs with
  | [] => rfl
  | c :: t =>
    simp only [headNotDig, Bool.not_eq_true'] at h
    simp [spanDigits, h]

theorem spanDigits_run (ds : List Char) (hds : ∀ c ∈ ds, isDig c = true)
    (rest : List Char) (hrest : headNotDig rest = true) :
    spanDigits (ds ++ rest) = (ds, rest) := by
  induction ds with
  | nil => simpa using spanDigits_stop hrest
  | cons c t ih =>
    have hc : isDig c = true := hds c (by simp)
    have ht := ih (fun x hx => hds x (by simp [hx]))
    simp [spanDigits, hc, ht]

/-- A digit character differs from every non-digit character. -/
theorem isDig_ne {c : Char} (h : isDig c = true) (d : Char) (hd : isDig d = false) :
    c ≠ d := by
  intro hcd
  subst hcd
  simp [h] at hd

theorem isDig_facts {c : Char} (h : isDig c = true) :
    c ≠ 'n' ∧ c ≠ 't' ∧ c ≠ 'f' ∧ c ≠ '"' ∧ c ≠ '[' ∧ c ≠ '{' ∧
    c ≠ ']' ∧ c ≠ '}' ∧ c ≠ ',' ∧ c ≠ '-' ∧ isWs c = false := by
  refine ⟨isDig_ne h 'n' (by decide), isDig_ne h 't' (by decide),
    isDig_ne h 'f' (by decide), isDig_ne h '"' (by decide),
    isDig_ne h '[' (by decide), isDig_ne h '{' (by decide),
    isDig_ne h ']' (by decide), isDig_ne h '}' (by decide),
    isDig_ne h ',' (by decide), isDig_ne h '-' (by decide), ?_⟩
  simp only [isWs, Bool.or_eq_false_iff, beq_eq_false_iff_ne]
  exact ⟨⟨⟨isDig_ne h ' ' (by decide), isDig_ne h '\t' (by decide)⟩,
    isDig_ne h '\n' (by decide)⟩, isDig_ne h '\r' (by decide)⟩

/-- A rendered digit run headed by its first digit, for case analysis. -/
theorem natChars_cons (n : Nat) :
    ∃ c t, natChars n = c :: t ∧ isDig c = true := by
  match h : natChars n with
  | [] => exact absurd h (natChars_ne_nil n)
  | c :: t => exact ⟨c, t, rfl, natChars_all_dig n c (h ▸ List.mem_cons_self ..)⟩

/-- `readNat` consumes exactly a rendered digit run. -/
theorem readNat_natChars (n : Nat) (rest : List Char) (hr : headNotDig rest = true) :
    readNat (natChars n ++ rest) = some (n, rest) := by
  obtain ⟨c, t, hc, _⟩ := natChars_cons n
  have hspan : spanDigits (natChars n ++ rest) = (c :: t, rest) := by
    rw [spanDigits_run _ (natChars_all_dig _) _ hr, hc]
  have hval : digitsVal (c :: t) = n := by
    have := digitsVal_natChars n
    rwa [hc] at this
  rw [readNat, hspan]
  show some (digitsVal (c :: t), rest) = some (n, rest)
  rw [hval]

theorem readInt_intChars (i : Int) (rest : List Char) (hr : headNotDig rest = true) :
    readInt (intChars i ++ rest) = some (i, rest) := by
  by_cases hi : i < 0
  · have harg : intChars i ++ rest = '-' :: (natChars i.natAbs ++ rest) := by
      simp [intChars, hi]
    rw [harg]
    show (readNat (natChars i.natAbs ++ rest)).map (fun p => (-(p.1 : Int), p.2))
      = some (i, rest)
    rw [readNat_natChars _ _ hr]
    show some (-(i.natAbs : Int), rest) = some (i, rest)
    have : -(i.natAbs : Int) = i := by omega
    rw [this]
  · obtain ⟨c, t, hc, hdig⟩ := natChars_cons i.natAbs
    have hminus : c ≠ '-' := (isDig_facts hdig).2.2.2.2.2.2.2.2.2.1
    have harg : intChars i ++ rest = c :: (t ++ rest) := by
      simp [intChars, hi, hc]
    have hread : readNat (intChars i ++ rest) = some (i.natAbs, rest) := by
      have hnn : intChars i = natChars i.natAbs := by simp [intChars, hi]
      rw [hnn, readNat_natChars _ _ hr]
    rw [harg, readInt.eq_def]
    split
    · rename_i heq
      exact absurd (List.cons.inj heq).1 hminus
    · rw [← harg, hread]
      show some ((i.natAbs : Int), rest) = some (i, rest)
      have : (i.natAbs : Int) = i := by omega
      rw [this]

theorem hexVal_hexChar (k : Nat) (h : k < 16) : hexVal (hexChar k) = some k := by
  interval_cases k <;> decide

/-- Reading one escaped character undoes `escape1`. -/
theorem readStr_escape1 (c : Char) (acc rest : List Char) :
    readStr acc (escape1 c ++ rest) = readStr (c :: acc) rest := by
  unfold escape1
  split_ifs with h1 h2 h3 h4 h5 h6 h7
  · have h1b : c = '"' ∨ c = '\\' := by simpa using h1
    rcases h1b with rfl | rfl <;> rfl
  · rw [show c = '\n' from by simpa using h2]
    rfl
  · rw [show c = '\r' from by simpa using h3]
    rfl
  · rw [show c = '\t' from by simpa using h4]
    rfl
  · rw [show c = '\x08' from by simpa using h5]
    rfl
  · rw [show c = '\x0c' from by simpa using h6]
    rfl
  · have hdiv : c.toNat / 16 < 16 := by omega
    have hmod : c.toNat % 16 < 16 := Nat.mod_lt _ (by omega)
    have harith : c.toNat / 16 * 16 + c.toNat % 16 = c.toNat := by omega
    simp [bsl, readStr, hexVal_hexChar _ hdiv, hexVal_hexChar _ hmod,
      show hexVal '0' = some 0 from by decide, harith, Char.ofNat_toNat]
  · have h1b : c ≠ '"' ∧ c ≠ '\\' := by
      constructor <;> (intro hc; subst hc; simp at h1)
    obtain ⟨hq, hb⟩ := h1b
    simp only [List.cons_append, List.nil_append]
    rw [readStr.eq_def]
    simp [hq, hb]

/-- Reading an escaped character run stops exactly at the closing quote. -/
theorem readStr_flat (cs : List Char) : ∀ (acc rest : List Char),
    readStr acc (cs.flatMap escape1 ++ '"' :: rest)
      = some (String.mk (acc.reverse ++ cs), rest) := by
  induction cs with
  | nil =>
    intro acc rest
    simp [readStr]
  | cons c cs ih =>
    intro acc rest
    rw [List.flatMap_cons, List.append_assoc, readStr_escape1, ih]
    simp

/-- The string-literal round-trip: reading a rendered string body recovers it. -/
theorem readStr_strChars (s : String) (rest : List Char) :
    readStr [] (s.data.flatMap escape1 ++ '"' :: rest) = some (s, rest) := by
  rw [readStr_flat]
  cases s
  simp

theorem dropWs_cons_not {c : Char} {t : List Char} (h : isWs c = false) :
    dropWs (c :: t) = c :: t := by
  simp [dropWs, h]

theorem headNotDig_cons (c : Char) (t : List Char) (h : isDig c = false) :
    headNotDig (c :: t) = true := by
  simp [headNotDig, h]

/-- Every rendered value begins with a digit or one of the seven opener
characters of the grammar. -/
theorem writeChars_shape (j : Json) :
    ∃ c t, Json.writeChars j = c :: t ∧
      (isDig c = true ∨ c ∈ ['n', 't', 'f', '"', '[', '{', '-']) := by
  cases j with
  | num i =>
    rcases Decidable.em (i < 0) with hi | hi
    · refine ⟨'-', natChars i.natAbs, ?_, Or.inr (by decide)⟩
      simp [Json.writeChars, intChars, hi]
    · obtain ⟨c, t, hc, hdig⟩ := natChars_cons i.natAbs
      refine ⟨c, t, ?_, Or.inl hdig⟩
      simp [Json.writeChars, intChars, hi, hc]
  | bool b =>
    cases b with
    | true => exact ⟨'t', _, rfl, Or.inr (by decide)⟩
    | false => exact ⟨'f', _, rfl, Or.inr (by decide)⟩
  | null => exact ⟨'n', _, rfl, Or.inr (by decide)⟩
  | str s => exact ⟨'"', _, rfl, Or.inr (by decide)⟩
  | arr items => exact ⟨'[', _, rfl, Or.inr (by decide)⟩
  | obj fields => exact ⟨'{', _, rfl, Or.inr (by decide)⟩

/-- Every rendered value starts with a character that is neither whitespace nor
a closing bracket/brace. -/
theorem writeChars_head (j : Json) :
    ∃ c t, Json.writeChars j = c :: t ∧ isWs c = false ∧ c ≠ ']' ∧ c ≠ '}' := by
  obtain ⟨c, t, hct, hc⟩ := writeChars_shape j
  refine ⟨c, t, hct, ?_⟩
  rcases hc with hdig | hlit
  · obtain ⟨_, _, _, _, _, _, hbr, hbc, _, _, hws⟩ := isDig_facts hdig
    exact ⟨hws, hbr, hbc⟩
  · fin_cases hlit <;> exact ⟨by decide, by decide, by decide⟩

theorem dropWs_write (j : Json) (x : List Char) :
    dropWs (Json.writeChars j ++ x) = Json.writeChars j ++ x := by
  obtain ⟨c, t, hct, hws, _, _⟩ := writeChars_head j
  rw [hct, List.cons_append, dropWs_cons_not hws]

theorem writeChars_length_pos (j : Json) : 1 ≤ (Json.writeChars j).length := by
  obtain ⟨c, t, hct, _, _, _⟩ := writeChars_head j
  simp [hct]

/-- Entering the array branch of the reader on a nonempty rendered item list. -/
theorem readValue_arr_entry (f : Nat) (x : Json) (xs : List Json) (rest : List Char) :
    readValue (f + 1) ('[' :: (Json.writeItems (x :: xs) ++ ']' :: rest))
      = (readItems f (Json.writeItems (x :: xs) ++ ']' :: rest)).map
          fun p => (Json.arr p.1, p.2) := by
  obtain ⟨c, t, hct, hws, hbr, _⟩ := writeChars_head x
  simp only [readValue, dropWs_cons_not (show isWs '[' = false from by decide)]
  have hhead : ∃ t2, Json.writeItems (x :: xs) ++ ']' :: rest = c :: t2 := by
    cases xs with
    | nil =>
      refine ⟨t ++ ']' :: rest, ?_⟩
      simp [Json.writeItems, hct]
    | cons y ys =>
      refine ⟨t ++ (',' :: Json.writeItems (y :: ys)) ++ ']' :: rest, ?_⟩
      simp [Json.writeItems, hct]
  obtain ⟨t2, ht2⟩ := hhead
  rw [ht2, dropWs_cons_not hws]
  simp [hbr]

/-- Entering the object branch of the reader on a nonempty rendered field list. -/
theorem readValue_obj_entry (f : Nat) (kv : String × Json) (ms : List (String × Json))
    (rest : List Char) :
    readValue (f + 1) ('{' :: (Json.writeFields (kv :: ms) ++ '}' :: rest))
      = (readFields f (Json.writeFields (kv :: ms) ++ '}' :: rest)).map
          fun p => (Json.obj p.1, p.2) := by
  have hhead : ∃ t2, Json.writeFields (kv :: ms) ++ '}' :: rest = '"' :: t2 := by
    obtain ⟨k, v⟩ := kv
    cases ms with
    | nil =>
      refine ⟨(k.data.flatMap escape1 ++ ['"']) ++ ':' :: Json.writeChars v ++ '}' :: rest, ?_⟩
      simp [Json.writeFields, strChars]
    | cons m ms2 =>
      refine ⟨(k.data.flatMap escape1 ++ ['"'])
        ++ ':' :: (Json.writeChars v ++ ',' :: Json.writeFields (m :: ms2)) ++ '}' :: rest, ?_⟩
      simp [Json.writeFields, strChars]
  obtain ⟨t2, ht2⟩ := hhead
  simp only [readValue, dropWs_cons_not (show isWs '{' = false from by decide)]
  rw [ht2, dropWs_cons_not (show isWs '"' = false from by decide)]
  simp

/-- Entering the number branch of the reader. -/
theorem readValue_num_entry (f : Nat) (c : Char) (t : List Char)
    (hws : isWs c = false) (hn : c ≠ 'n') (ht : c ≠ 't') (hf : c ≠ 'f')
    (hq : c ≠ '"') (hbk : c ≠ '[') (hbc : c ≠ '{')
    (hg : (c == '-' || isDig c) = true) :
    readValue (f + 1) (c :: t)
      = (readInt (c :: t)).map fun p => (Json.num p.1, p.2) := by
  simp only [readValue, dropWs_cons_not hws]
  simp [hn, ht, hf, hq, hbk, hbc, hg]

mutual
/-- Reading a rendered value recovers it (fuel above its length suffices; the
remainder must not start with a digit, which every closing context satisfies). -/
theorem readValue_write : ∀ (j : Json) (fuel : Nat) (rest : List Char),
    (Json.writeChars j).length < fuel → headNotDig rest = true →
    readValue fuel (Json.writeChars j ++ rest) = some (j, rest)
  | .null, fuel, rest, hf, _ => by
    cases fuel with
    | zero => exact absurd hf (Nat.not_lt_zero _)
    | succ f => simp [Json.writeChars, readValue, dropWs, isWs]
  | .bool b, fuel, rest, hf, _ => by
    cases fuel with
    | zero => exact absurd hf (Nat.not_lt_zero _)
    | succ f => cases b <;> simp [Json.writeChars, readValue, dropWs, isWs]
  | .num i, fuel, rest, hf, hr => by
    cases fuel with
    | zero => exact absurd hf (Nat.not_lt_zero _)
    | succ f =>
      by_cases hi : i < 0
      · have harg : Json.writeChars (.num i) ++ rest = '-' :: (natChars i.natAbs ++ rest) := by
          simp [Json.writeChars, intChars, hi]
        have harg2 : '-' :: (natChars i.natAbs ++ rest) = intChars i ++ rest := by
          simp [intChars, hi]
        rw [harg, readValue_num_entry f '-' _ (by decide) (by decide) (by decide)
          (by decide) (by decide) (by decide) (by decide) (by decide),
          harg2, readInt_intChars i rest hr]
        rfl
      · obtain ⟨c, t, hc, hdig⟩ := natChars_cons i.natAbs
        obtain ⟨hcn, hct, hcf, hcq, hck, hcb, _, _, _, _, hws⟩ := isDig_facts hdig
        have harg : Json.writeChars (.num i) ++ rest = c :: (t ++ rest) := by
          simp [Json.writeChars, intChars, hi, hc]
        have harg2 : c :: (t ++ rest) = intChars i ++ rest := by
          simp [intChars, hi, hc]
        rw [harg, readValue_num_entry f c _ hws hcn hct hcf hcq hck hcb
          (by simp [hdig]), harg2, readInt_intChars i rest hr]
        rfl
  | .str s, fuel, rest, hf, _ => by
    cases fuel with
    | zero => exact absurd hf (Nat.not_lt_zero _)
    | succ f =>
      have harg : Json.writeChars (.str s) ++ rest
          = '"' :: (s.data.flatMap escape1 ++ '"' :: rest) := by
        simp [Json.writeChars, strChars]
      rw [harg]
      simp only [readValue, dropWs_cons_not (show isWs '"' = false from by decide)]
      rw [readStr_strChars]
      rfl
  | .arr [], fuel, rest, hf, _ => by
    cases fuel with
    | zero => exact absurd hf (Nat.not_lt_zero _)
    | succ f =>
      have harg : Json.writeChars (.arr []) ++ rest = '[' :: ']' :: rest := by
        simp [Json.writeChars, Json.writeItems]
      rw [harg]
      simp [readValue, dropWs, isWs]
  | .arr (x :: xs), fuel, rest, hf, _ => by
    cases fuel with
    | zero => exact absurd hf (Nat.not_lt_zero _)
    | succ f =>
      have harg : Json.writeChars (.arr (x :: xs)) ++ rest
          = '[' :: (Json.writeItems (x :: xs) ++ ']' :: rest) := by
        simp [Json.writeChars]
      have hlen : (Json.writeItems (x :: xs)).length + 1 < f := by
        simp only [Json.writeChars, List.length_cons, List.length_append,
          List.length_singleton] at hf
        omega
      rw [harg, readValue_arr_entry, readItems_write x xs f rest hlen]
      rfl
  | .obj [], fuel, rest, hf, _ => by
    cases fuel with
    | zero => exact absurd hf (Nat.not_lt_zero _)
    | succ f =>
      have harg : Json.writeChars (.obj []) ++ rest = '{' :: '}' :: rest := by
        simp [Json.writeChars, Json.writeFields]
      rw [harg]
      simp [readValue, dropWs, isWs]
  | .obj (kv :: ms), fuel, rest, hf, _ => by
    cases fuel with
    | zero => exact absurd hf (Nat.not_lt_zero _)
    | succ f =>
      have harg : Json.writeChars (.obj (kv :: ms)) ++ rest
          = '{' :: (Json.writeFields (kv :: ms) ++ '}' :: rest) := by
        simp [Json.writeChars]
      have hlen : (Json.writeFields (kv :: ms)).length + 1 < f := by
        simp only [Json.writeChars, List.length_cons, List.length_append,
          List.length_singleton] at hf
        omega
      rw [harg, readValue_obj_entry, readFields_write kv ms f rest hlen]
      rfl
termination_by j _ _ _ _ => sizeOf j

/-- Reading a rendered nonempty item list recovers it up to the closing `]`. -/
theorem readItems_write : ∀ (x : Json) (xs : List Json) (fuel : Nat) (rest : List Char),
    (Json.writeItems (x :: xs)).length + 1 < fuel →
    readItems fuel (Json.writeItems (x :: xs) ++ ']' :: rest) = some (x :: xs, rest)
  | x, [], fuel, rest, hf => by
    cases fuel with
    | zero => exact absurd hf (Nat.not_lt_zero _)
    | succ f =>
      have hxlen : (Json.writeChars x).length < f := by
        simp only [Json.writeItems, List.length_nil] at hf
        omega
      have hx := readValue_write x f (']' :: rest) hxlen (headNotDig_cons _ _ (by decide))
      have harg : Json.writeItems [x] ++ ']' :: rest = Json.writeChars x ++ ']' :: rest := by
        simp [Json.writeItems]
      rw [harg]
      simp only [readItems, hx]
      simp [dropWs, isWs]
  | x, y :: ys, fuel, rest, hf => by
    cases fuel with
    | zero => exact absurd hf (Nat.not_lt_zero _)
    | succ f =>
      have harg : Json.writeItems (x :: y :: ys) ++ ']' :: rest
          = Json.writeChars x ++ (',' :: (Json.writeItems (y :: ys) ++ ']' :: rest)) := by
        simp [Json.writeItems]
      have hxlen : (Json.writeChars x).length < f := by
        simp only [Json.writeItems, List.length_append, List.length_cons] at hf
        omega
      have hylen : (Json.writeItems (y :: ys)).length + 1 < f := by
        have := writeChars_length_pos x
        simp only [Json.writeItems, List.length_append, List.length_cons] at hf
        omega
      have hx := readValue_write x f (',' :: (Json.writeItems (y :: ys) ++ ']' :: rest))
        hxlen (headNotDig_cons _ _ (by decide))
      have hy := readItems_write y ys f rest hylen
      rw [harg]
      simp only [readItems, hx]
      simp only [dropWs_cons_not (show isWs ',' = false from by decide)]
      rw [hy]
      rfl
termination_by x xs _ _ _ => sizeOf x + sizeOf xs

/-- Reading a rendered nonempty field list recovers it up to the closing `}`. -/
theorem readFields_write :
    ∀ (kv : String × Json) (ms : List (String × Json)) (fuel : Nat) (rest : List Char),
    (Json.writeFields (kv :: ms)).length + 1 < fuel →
    readFields fuel (Json.writeFields (kv :: ms) ++ '}' :: rest) = some (kv :: ms, rest)
  | (k, v), [], fuel, rest, hf => by
    cases fuel with
    | zero => exact absurd hf (Nat.not_lt_zero _)
    | succ f =>
      have hvlen : (Json.writeChars v).length < f := by
        simp only [Json.writeFields, List.length_append, List.length_cons] at hf
        omega
      have hv := readValue_write v f ('}' :: rest) hvlen (headNotDig_cons _ _ (by decide))
      have harg : Json.writeFields [(k, v)] ++ '}' :: rest
          = '"' :: (k.data.flatMap escape1
              ++ '"' :: (':' :: (Json.writeChars v ++ '}' :: rest))) := by
        simp [Json.writeFields, strChars]
      rw [harg]
      simp only [readFields, dropWs_cons_not (show isWs '"' = false from by decide)]
      rw [readStr_strChars]
      simp only [dropWs_cons_not (show isWs ':' = false from by decide)]
      rw [hv]
      simp [dropWs, isWs]
  | (k, v), m :: ms, fuel, rest, hf => by
    cases fuel with
    | zero => exact absurd hf (Nat.not_lt_zero _)
    | succ f =>
      have hvlen : (Json.writeChars v).length < f := by
        simp only [Json.writeFields, List.length_append, List.length_cons] at hf
        omega
      have hmlen : (Json.writeFields (m :: ms)).length + 1 < f := by
        have := writeChars_length_pos v
        simp only [Json.writeFields, List.length_append, List.length_cons] at hf
        omega
      have hv := readValue_write v f
        (',' :: (Json.writeFields (m :: ms) ++ '}' :: rest)) hvlen
        (headNotDig_cons _ _ (by decide))
      have hm := readFields_write m ms f rest hmlen
      have harg : Json.writeFields ((k, v) :: m :: ms) ++ '}' :: rest
          = '"' :: (k.data.flatMap escape1
              ++ '"' :: (':' :: (Json.writeChars v
                ++ ',' :: (Json.writeFields (m :: ms) ++ '}' :: rest)))) := by
        simp [Json.writeFields, strChars]
      rw [harg]
      simp only [readFields, dropWs_cons_not (show isWs '"' = false from by decide)]
      rw [readStr_strChars]
      simp only [dropWs_cons_not (show isWs ':' = false from by decide)]
      rw [hv]
      simp only [dropWs_cons_not (show isWs ',' = false from by decide)]
      rw [hm]
      rfl
termination_by kv ms _ _ _ => sizeOf kv + sizeOf ms
end

/-- The codec round-trip: `Json.parse` inverts `Json.stringify` on every
value of the model. -/
theorem Json.parse_stringify (j : Json) : Json.parse (Json.stringify j) = some j := by
  have h := readValue_write j ((Json.writeChars j).length + 1) [] (by omega) rfl
  rw [List.append_nil] at h
  show (match readValue ((Json.writeChars j).length + 1) (Json.writeChars j) with
    | some (j, r) => if (dropWs r).isEmpty then some j else none
    | none => none) = some j
  rw [h]
  rfl

/-! ## Data model (`prisma/schema.prisma`)

`model Task`: `id String @id`, `agentId String`, `logs String`, `output String`,
`status Status` (required, no default — see the migration adding it), and
`callback String?`. `enum Status { running complete error }`. -/

/-- The `Status` enum of the schema. -/
inductive Status where
  | running
  | complete
  | error
deriving Repr, DecidableEq

/-- Validation of a JSON value against the `Status` enum column, as the Prisma
client performs it on write: only the three enum literals are accepted. -/
def Status.ofJson : Json → Option Status
  | .str "running" => some .running
  | .str "complete" => some .complete
  | .str "error" => some .error
  | _ => none

/-- A row of the `Task` table. `logs` and `output` are `String` columns holding
JSON text; `callback` is nullable. -/
structure TaskRecord where
  id : String
  agentId : String
  logs : String
  output : String
  status : Status
  callback : Option String := none
deriving Repr, DecidableEq

/-- The `Task` table. -/
abbrev TaskTable := List TaskRecord

/-- A task as the handlers return it over HTTP: the row with `logs` and
`output` parsed back into values (`dbTask.logs = JSON.parse(dbTask.logs)`). -/
structure TaskView where
  id : String
  agentId : String
  logs : Json
  output : Json
  status : Status
  callback : Option String
deriving Repr

/-- `prisma.task.findUnique({ where: { id } })`. -/
def taskFindUnique (db : TaskTable) (id : String) : Option TaskRecord :=
  db.find? fun r => r.id == id

/-- `prisma.task.update({ where: { id }, data })`. The `data` object is the
field update `f`. Throws (here: `.error`) when no row has the id (P2025);
otherwise rewrites the matching row and returns it. -/
def taskUpdate (db : TaskTable) (id : String) (f : TaskRecord → TaskRecord) :
    Except Unit (TaskTable × TaskRecord) :=
  match taskFindUnique db id with
  | none => .error ()
  | some r => .ok (db.map fun t => if t.id == id then f t else t, f r)

/-- The `data` of a `prisma.task.create` call. A field the call site omits is
`none`; `agentId` and `status` are required non-null columns without defaults,
so omitting either makes the client reject the create. -/
structure TaskCreateInput where
  id : String
  agentId : Option String := none
  logs : String
  output : String
  status : Option Status := none
  callback : Option String := none

/-- `prisma.task.create({ data })`: rejects a duplicate id (P2002) and a
missing required column; otherwise appends the new row and returns it. -/
def taskCreate (db : TaskTable) (d : TaskCreateInput) :
    Except Unit (TaskTable × TaskRecord) :=
  if db.any fun r => r.id == d.id then .error ()
  else
    match d.agentId, d.status with
    | some aid, some st =>
      let r : TaskRecord :=
        { id := d.id, agentId := aid, logs := d.logs, output := d.output,
          status := st, callback := d.callback }
      .ok (db ++ [r], r)
    | _, _ => .error ()

/-- `prisma.task.upsert({ create, update, where: { id } })`. The client
validates the whole argument object eagerly, before executing anything:
`create` data missing a required column (`agentId`, `status`) makes the call
throw `PrismaClientValidationError` whether or not a row with the id exists.
Only with well-formed arguments does it update the existing row, else create
from `create`. -/
def taskUpsert (db : TaskTable) (id : String) (create : TaskCreateInput)
    (update : TaskRecord → TaskRecord) : Except Unit (TaskTable × TaskRecord) :=
  match create.agentId, create.status with
  | some _, some _ =>
    if db.any fun r => r.id == id then taskUpdate db id update
    else taskCreate db create
  | _, _ => .error ()

/-! ## The delivery retry loop

Both callback handlers run
`let retries = 5; while (retries > 0) { try { ...; return res.200 } catch
{ await snooze(2000); retries-- } } res.500` — a bounded loop with a fixed
2000 ms sleep after every failed attempt. An attempt is a function from the
table to the table after the attempt plus `some` body on success (`none`
models a caught exception; the table it returns is whatever the attempt had
already committed, so a failure after a committed write keeps the write). -/

/-- Observable events of the delivery loop: tried attempts and `snooze` calls. -/
inductive DeliveryEvent where
  | attempt (n : Nat)
  | sleep (ms : Nat)
deriving Repr, DecidableEq

/-- What a callback handler run produces: the table afterwards, the HTTP
response status, the 200 body when one was sent, and the event trace. -/
structure DeliveryOutcome (τ : Type) where
  db : TaskTable
  status : Nat
  body : Option τ
  events : List DeliveryEvent

/-- The retry loop itself, by recursion on the remaining `retries` counter;
`n` numbers the attempts from 0. -/
def retryLoop {τ : Type} (attempt : Nat → TaskTable → TaskTable × Option τ) :
    Nat → Nat → TaskTable → DeliveryOutcome τ
  | 0, _, db => ⟨db, 500, none, []⟩
  | r + 1, n, db =>
    match attempt n db with
    | (db2, some t) => ⟨db2, 200, some t, [.attempt n]⟩
    | (db2, none) =>
      let rest := retryLoop attempt r (n + 1) db2
      ⟨rest.db, rest.status, rest.body, .attempt n :: .sleep 2000 :: rest.events⟩

/-- The trace of `k` consecutive failed attempts starting at `start`: each is
followed by the fixed 2000 ms sleep. -/
def deliveryTrace : Nat → Nat → List DeliveryEvent
  | _, 0 => []
  | start, k + 1 => .attempt start :: .sleep 2000 :: deliveryTrace (start + 1) k

/-- Number of attempts in a trace. -/
def countAttempts (es : List DeliveryEvent) : Nat :=
  (es.filter fun e => match e with | .attempt _ => true | _ => false).length

/-! ## JS runtime values, for the dead guard of the upsert handler

`pages/api/v1/callback/task/index.js` (upsert variant) contains
`if (!output instanceof String) { output = JSON.stringify(output); }`.
JS parses this as `(!output) instanceof String`. The model distinguishes the
values `!` and `instanceof` care about: `undefined`, `NaN`, primitives (JSON
shapes cover them), and `String` wrapper objects, the only values for which
`x instanceof String` is `true`. -/

/-- A JS runtime value as far as truthiness and `instanceof String` go. -/
inductive JsValue where
  | undef
  | nan
  | prim (j : Json)
  | strObject (s : String)
deriving Repr

/-- JS truthiness: `undefined`, `null`, `false`, `0`, `NaN` and `""` are falsy;
every object (a `String` wrapper included) is truthy. -/
def truthy : JsValue → Bool
  | .undef => false
  | .nan => false
  | .strObject _ => true
  | .prim .null => false
  | .prim (.bool b) => b
  | .prim (.num n) => decide (n ≠ 0)
  | .prim (.str s) => decide (s ≠ "")
  | .prim (.arr _) => true
  | .prim (.obj _) => true

/-- The JS `!` operator: a primitive boolean. -/
def jsNot (v : JsValue) : JsValue := .prim (.bool (!truthy v))

/-- `x instanceof String`: `true` exactly for `String` wrapper objects, never
for any primitive. -/
def instanceofString : JsValue → Bool
  | .strObject _ => true
  | _ => false

/-- The guard `!output instanceof String` as JS evaluates it:
`(!output) instanceof String`. -/
def upsertOutputGuard (output : JsValue) : Bool := instanceofString (jsNot output)

/-- `JSON.stringify` on a runtime value (`undefined` stays `undefined`,
`NaN` prints as `null`). -/
def jsJsonStringify : JsValue → JsValue
  | .undef => .undef
  | .nan => .prim (.str "null")
  | .prim j => .prim (.str (Json.stringify j))
  | .strObject s => .prim (.str (Json.stringify (.str s)))

/-- Lines 15–17 of the upsert handler: conditionally normalize `output`. -/
def normalizeOutput (output : JsValue) : JsValue :=
  if upsertOutputGuard output then jsJsonStringify output else output

/-! ## The callback handlers

Three siblings exist in the repository; all destructure `req.body`, loop five
times over a `prisma.task` write, parse the `logs`/`output` of the row back and
answer 200 with the row, else 500 after the loop.

* `frontend/pages/api/v1/callback/task/index.js`: `prisma.task.update`
  setting `logs` and `output` only;
* the upsert variant (same doc comment, `prisma.task.upsert`): create data
  `{id, logs, output}` — `output` passed through raw, and neither `status`
  nor `agentId` supplied — update data `{logs, output}`;
* the variant in `frontend/pages/api/v1/agent/index.js`: `prisma.task.update`
  setting `status`, `logs`, `output`, then firing `fireCallback` when the
  `callback` of the row is truthy. -/

/-- One `try` body of the update-variant handler. The `fault` oracle injects
transient infrastructure failures (a thrown promise rejection) at given
attempt numbers; a prisma write that throws has not written. -/
def callbackTaskAttempt (id : String) (logs output : Json) (fault : Nat → Bool)
    (n : Nat) (db : TaskTable) : TaskTable × Option TaskView :=
  if fault n then (db, none)
  else
    match taskUpdate db id (fun r =>
      { r with logs := Json.stringify logs, output := Json.stringify output }) with
    | .error _ => (db, none)
    | .ok (db2, rec) =>
      match Json.parse rec.logs, Json.parse rec.output with
      | some lj, some oj =>
        (db2, some ⟨rec.id, rec.agentId, lj, oj, rec.status, rec.callback⟩)
      | _, _ => (db2, none)

/-- The update-variant callback handler (`callback/task/index.js`). -/
def callbackTaskHandler (db : TaskTable) (id : String) (logs output : Json)
    (fault : Nat → Bool) : DeliveryOutcome TaskView :=
  retryLoop (callbackTaskAttempt id logs output fault) 5 0 db

/-- One `try` body of the upsert-variant handler. The create data carries
neither `status` nor `agentId` (both required columns), so the eager argument
validation of `taskUpsert` rejects the call whether or not the row exists;
`output` must also be a primitive string to be storable in the `String`
column at all. -/
def callbackUpsertAttempt (id : String) (logs : Json) (output : JsValue)
    (fault : Nat → Bool) (n : Nat) (db : TaskTable) : TaskTable × Option TaskView :=
  if fault n then (db, none)
  else
    match output with
    | .prim (.str s) =>
      (match taskUpsert db id
          { id := id, logs := Json.stringify logs, output := s }
          (fun r => { r with logs := Json.stringify logs, output := s }) with
       | .error _ => (db, none)
       | .ok (db2, rec) =>
         match Json.parse rec.logs, Json.parse rec.output with
         | some lj, some oj =>
           (db2, some ⟨rec.id, rec.agentId, lj, oj, rec.status, rec.callback⟩)
         | _, _ => (db2, none))
    | _ => (db, none)

/-- The upsert-variant callback handler. `output` is first passed through the
(dead) normalization guard, then the loop runs. -/
def callbackUpsertHandler (db : TaskTable) (id : String) (logs : Json)
    (output : JsValue) (fault : Nat → Bool) : DeliveryOutcome TaskView :=
  retryLoop (callbackUpsertAttempt id logs (normalizeOutput output) fault) 5 0 db

/-! ## Outbound HTTP (`fetch`) models -/

/-- What one `fetch` comes back with: a rejection, or a response with a status
code and a body text. -/
inductive FetchOutcome where
  | netError
  | response (status : Nat) (body : String)

/-- `res.ok`: status in the 2xx range. -/
def resOk (status : Nat) : Bool := 200 ≤ status && status ≤ 299

/-- The JS `Error` values these functions produce and `console.log`. -/
inductive JsError where
  | network
  | jsonParse
  | httpError (status : Nat)
deriving Repr, DecidableEq

/-- An outbound callback POST: target URL and the task body sent. -/
structure CallbackRequest where
  url : String
  payload : TaskView

/-- What one `fireCallback` call did: the requests it issued (always exactly
the single `fetch` — the function has no loop), the value it resolves with,
and what it logged to the console. It catches internally and never throws. -/
structure FireOutcome where
  requests : List CallbackRequest
  result : Except JsError Json
  consoleErrors : List JsError

/-- `fireCallback({url, taskData})` from `agent/index.js`: one POST of the
task body; a non-2xx response becomes a thrown-then-caught `Error`, a body
that fails `res.json()` becomes a caught `SyntaxError`; every caught error is
logged and returned (not rethrown). -/
def fireCallback (url : String) (taskData : TaskView) (outcome : FetchOutcome) :
    FireOutcome :=
  match outcome with
  | .netError => ⟨[⟨url, taskData⟩], .error .network, [.network]⟩
  | .response st body =>
    if resOk st then
      match Json.parse body with
      | some j => ⟨[⟨url, taskData⟩], .ok j, []⟩
      | none => ⟨[⟨url, taskData⟩], .error .jsonParse, [.jsonParse]⟩
    else
      match Json.parse body with
      | some _ => ⟨[⟨url, taskData⟩], .error (.httpError st), [.httpError st]⟩
      | none => ⟨[⟨url, taskData⟩], .error .jsonParse, [.jsonParse]⟩

/-- `if (dbTask.callback) ...`: JS truthiness of the nullable column — `null`
and the empty string are falsy. -/
def callbackTruthy : Option String → Bool
  | none => false
  | some s => decide (s ≠ "")

/-- One `try` body of the `agent/index.js` callback variant: update `status`
(validated against the enum), `logs`, `output`; parse the row back; fire the
notification when the `callback` of the row is truthy; 200 with the row. The body
records the outbound requests and console errors of the fired callback. -/
def agentCallbackAttempt (id : String) (logs output statusJ : Json)
    (po : FetchOutcome) (fault : Nat → Bool) (n : Nat) (db : TaskTable) :
    TaskTable × Option (TaskView × List CallbackRequest × List JsError) :=
  if fault n then (db, none)
  else
    match Status.ofJson statusJ with
    | none => (db, none)
    | some st =>
      match taskUpdate db id (fun r =>
        { r with status := st, logs := Json.stringify logs,
                 output := Json.stringify output }) with
      | .error _ => (db, none)
      | .ok (db2, rec) =>
        match Json.parse rec.logs, Json.parse rec.output with
        | some lj, some oj =>
          let view : TaskView := ⟨rec.id, rec.agentId, lj, oj, rec.status, rec.callback⟩
          if callbackTruthy rec.callback then
            let fire := fireCallback (rec.callback.getD "") view po
            (db2, some (view, fire.requests, fire.consoleErrors))
          else (db2, some (view, [], []))
        | _, _ => (db2, none)

/-- The `agent/index.js` callback-variant handler. -/
def agentCallbackHandler (db : TaskTable) (id : String) (logs output statusJ : Json)
    (po : FetchOutcome) (fault : Nat → Bool) :
    DeliveryOutcome (TaskView × List CallbackRequest × List JsError) :=
  retryLoop (agentCallbackAttempt id logs output statusJ po fault) 5 0 db

/-! ## `runAgent` (`utils/server/run-workflow.js`) -/

/-- What `runAgent` resolves with: the parsed task on success, else the caught
`Error` object. It never rejects: every failure path runs through the `catch`,
which logs and `return`s the error. -/
inductive RunAgentResult where
  | data (j : Json)
  | err (e : JsError)

/-- The caller-side test `response instanceof Error`. -/
def RunAgentResult.isError : RunAgentResult → Bool
  | .data _ => false
  | .err _ => true

/-- `runAgent({agent})`: POST to the engine; non-`res.ok` throws an `Error`
(after reading `error.info = await res.json()`, whose own failure is caught
the same way); an ok response resolves with `res.json()`. -/
def runAgent (outcome : FetchOutcome) : RunAgentResult :=
  match outcome with
  | .netError => .err .network
  | .response st body =>
    if resOk st then
      match Json.parse body with
      | some j => .data j
      | none => .err .jsonParse
    else
      match Json.parse body with
      | some _ => .err (.httpError st)
      | none => .err .jsonParse

/-! ## The workflow-run handler (agent run route)

Lines 22–40: parse the stored agent `variables`, overwrite each key present
in the request `input` (`agent.variables[key] = input[key]`), and send the
result to the engine as the variable seed of the run. Lines 47–56: persist the
task of the engine with `logs`/`output` stored as `JSON.stringify` of the arrays
and maps the engine returned. -/

/-- The JS assignment `vars[k] = v` on an object modelled as an ordered field
list: replace the value when the key exists, else add the key at the end. -/
def setVar (vars : List (String × Json)) (k : String) (v : Json) :
    List (String × Json) :=
  if vars.any fun p => p.1 == k then
    vars.map fun p => if p.1 == k then (p.1, v) else p
  else vars ++ [(k, v)]

/-- The `for (const key in input) { agent.variables[key] = input[key] }` loop:
the variable seed sent to the engine. -/
def populateVariables (stored input : List (String × Json)) :
    List (String × Json) :=
  input.foldl (fun acc kv => setVar acc kv.1 kv.2) stored

/-- JS property read `vars[k]`. -/
def lookupVar (vars : List (String × Json)) (k : String) : Option Json :=
  (vars.find? fun p => p.1 == k).map Prod.snd

/-- Lines 47–56 of the run handler: `prisma.task.create` with the engine
id and status of the response and `JSON.stringify` of its `logs` and `output`. -/
def runWorkflowPersist (db : TaskTable) (agentId id : String) (st : Status)
    (logs output : Json) : Except Unit (TaskTable × TaskRecord) :=
  taskCreate db
    { id := id, agentId := some agentId, status := some st,
      logs := Json.stringify logs, output := Json.stringify output }

/-! ## The task GET handler (`task/[taskId]/index.js`) -/

/-- Responses of the GET handler: 404, 200 with the parsed task, or 500 when
`JSON.parse` of a stored column throws. -/
inductive GetTaskResult where
  | notFound
  | found (t : TaskView)
  | failed

/-- `GET /api/v1/task/[taskId]`: find the row, parse `logs` and `output`,
answer 200 with the task. -/
def getTaskHandler (db : TaskTable) (taskId : String) : GetTaskResult :=
  match taskFindUnique db taskId with
  | none => .notFound
  | some r =>
    match Json.parse r.logs, Json.parse r.output with
    | some lj, some oj => .found ⟨r.id, r.agentId, lj, oj, r.status, r.callback⟩
    | _, _ => .failed

/-! ## Behaviour of the retry loop -/

/-- When every attempt in range fails without touching the table, the loop
exhausts its five tries, leaves the table alone, answers 500 and sleeps the
fixed 2000 ms after each attempt. -/
theorem retryLoop_fail {τ : Type} (attempt : Nat → TaskTable → TaskTable × Option τ) :
    ∀ (r start : Nat) (db : TaskTable),
      (∀ n, start ≤ n → n < start + r → attempt n db = (db, none)) →
      retryLoop attempt r start db = ⟨db, 500, none, deliveryTrace start r⟩ := by
  intro r
  induction r with
  | zero => intro start db _; rfl
  | succ r ih =>
    intro start db h
    have h0 : attempt start db = (db, none) := h start (Nat.le_refl _) (by omega)
    simp only [retryLoop, h0]
    rw [ih (start + 1) db (fun n hn1 hn2 => h n (by omega) (by omega))]
    rfl

/-- A successful attempt answers 200 at once with the table the attempt produced. -/
theorem retryLoop_ok {τ : Type} (attempt : Nat → TaskTable → TaskTable × Option τ)
    (r start : Nat) (db db2 : TaskTable) (t : τ)
    (h : attempt start db = (db2, some t)) :
    retryLoop attempt (r + 1) start db = ⟨db2, 200, some t, [.attempt start]⟩ := by
  simp [retryLoop, h]

/-- Any table predicate preserved by the attempt function is preserved by the
whole loop. -/
theorem retryLoop_db_invariant {τ : Type}
    (attempt : Nat → TaskTable → TaskTable × Option τ) (P : TaskTable → Prop)
    (hstep : ∀ n db2, P db2 → P (attempt n db2).1) :
    ∀ (r start : Nat) (db : TaskTable), P db → P (retryLoop attempt r start db).db := by
  intro r
  induction r with
  | zero => intro start db h; exact h
  | succ r ih =>
    intro start db h
    match h0 : attempt start db with
    | (db2, some t) =>
      have h2 := hstep start db h
      rw [h0] at h2
      simp only [retryLoop, h0]
      exact h2
    | (db2, none) =>
      have h2 := hstep start db h
      rw [h0] at h2
      simp only [retryLoop, h0]
      exact ih (start + 1) db2 h2

/-- The loop either exhausts all `r` tries (500, table untouched) or succeeds
at the first working attempt `k` (200), provided failed attempts leave the
table as they found it. -/
theorem retryLoop_char {τ : Type}
    (attempt : Nat → TaskTable → TaskTable × Option τ)
    (hpres : ∀ n db2, (attempt n db2).2 = none → (attempt n db2).1 = db2) :
    ∀ (r start : Nat) (db : TaskTable),
      ∃ k, (k = r ∧ retryLoop attempt r start db = ⟨db, 500, none, deliveryTrace start r⟩) ∨
           (k < r ∧ ∃ db2 t, attempt (start + k) db = (db2, some t) ∧
             retryLoop attempt r start db
               = ⟨db2, 200, some t, deliveryTrace start k ++ [.attempt (start + k)]⟩) := by
  intro r
  induction r with
  | zero => intro start db; exact ⟨0, Or.inl ⟨rfl, rfl⟩⟩
  | succ r ih =>
    intro start db
    match h0 : attempt start db with
    | (db2, some t) =>
      refine ⟨0, Or.inr ⟨by omega, db2, t, ?_, ?_⟩⟩
      · simpa using h0
      · rw [retryLoop_ok attempt r start db db2 t h0]
        simp [deliveryTrace]
    | (db2, none) =>
      have hdb2 : db2 = db := by
        have h2 := hpres start db
        rw [h0] at h2
        exact h2 rfl
      rw [hdb2] at h0
      obtain ⟨k, hk⟩ := ih (start + 1) db
      rcases hk with ⟨hkr, heq⟩ | ⟨hkr, db3, t, hatt, heq⟩
      · subst hkr
        refine ⟨k + 1, Or.inl ⟨rfl, ?_⟩⟩
        simp only [retryLoop, h0, heq]
        rfl
      · refine ⟨k + 1, Or.inr ⟨by omega, db3, t, ?_, ?_⟩⟩
        · rw [show start + (k + 1) = start + 1 + k from by omega]
          exact hatt
        · simp only [retryLoop, h0, heq]
          have harith : start + 1 + k = start + (k + 1) := by omega
          simp [deliveryTrace, harith]

theorem countAttempts_trace : ∀ (start k : Nat),
    countAttempts (deliveryTrace start k) = k := by
  intro start k
  induction k generalizing start with
  | zero => rfl
  | succ k ih => simp [deliveryTrace, countAttempts, List.filter] at ih ⊢; exact ih _

theorem trace_sleep_ms : ∀ (start k ms : Nat),
    DeliveryEvent.sleep ms ∈ deliveryTrace start k → ms = 2000 := by
  intro start k
  induction k generalizing start with
  | zero => intro ms h; simp [deliveryTrace] at h
  | succ k ih =>
    intro ms h
    simp only [deliveryTrace, List.mem_cons] at h
    rcases h with h | h | h
    · cases h
    · cases h; rfl
    · exact ih (start + 1) ms h

theorem countAttempts_append (a b : List DeliveryEvent) :
    countAttempts (a ++ b) = countAttempts a + countAttempts b := by
  simp [countAttempts]

/-! ## Inversions of the table operations -/

theorem taskUpdate_ok {db : TaskTable} {id : String} {f : TaskRecord → TaskRecord}
    {db2 : TaskTable} {rec : TaskRecord}
    (h : taskUpdate db id f = .ok (db2, rec)) :
    ∃ r, taskFindUnique db id = some r ∧ rec = f r ∧
      db2 = db.map fun t => if t.id == id then f t else t := by
  unfold taskUpdate at h
  match hf : taskFindUnique db id with
  | none => rw [hf] at h; cases h
  | some r =>
    rw [hf] at h
    injection h with h
    injection h with h1 h2
    exact ⟨r, rfl, h2.symm, h1.symm⟩

theorem taskUpdate_found {db : TaskTable} {id : String} {f : TaskRecord → TaskRecord}
    {r : TaskRecord} (h : taskFindUnique db id = some r) :
    taskUpdate db id f = .ok (db.map fun t => if t.id == id then f t else t, f r) := by
  unfold taskUpdate
  rw [h]

theorem taskUpdate_notFound {db : TaskTable} {id : String} {f : TaskRecord → TaskRecord}
    (h : taskFindUnique db id = none) : taskUpdate db id f = .error () := by
  unfold taskUpdate
  rw [h]

theorem find?_append_right {α : Type} {p : α → Bool} :
    ∀ (l1 l2 : List α), l1.any p = false → (l1 ++ l2).find? p = l2.find? p := by
  intro l1 l2 h
  induction l1 with
  | nil => rfl
  | cons a t ih =>
    simp only [List.any_cons, Bool.or_eq_false_iff] at h
    simp only [List.cons_append, List.find?]
    rw [h.1]
    exact ih h.2

/-! ## Behaviour of the update-variant callback attempt -/

theorem callbackTaskAttempt_fault (id : String) (logs output : Json)
    (fault : Nat → Bool) (n : Nat) (db : TaskTable) (hf : fault n = true) :
    callbackTaskAttempt id logs output fault n db = (db, none) := by
  simp [callbackTaskAttempt, hf]

theorem callbackTaskAttempt_notFound (id : String) (logs output : Json)
    (fault : Nat → Bool) (n : Nat) (db : TaskTable)
    (hr : taskFindUnique db id = none) :
    callbackTaskAttempt id logs output fault n db = (db, none) := by
  by_cases hf : fault n
  · simp [callbackTaskAttempt, hf]
  · simp only [callbackTaskAttempt, hf, Bool.false_eq_true, if_false]
    rw [taskUpdate_notFound hr]

theorem callbackTaskAttempt_found (id : String) (logs output : Json)
    (fault : Nat → Bool) (n : Nat) (db : TaskTable) (r : TaskRecord)
    (hf : fault n = false) (hr : taskFindUnique db id = some r) :
    callbackTaskAttempt id logs output fault n db
      = (db.map fun t => if t.id == id then
           { t with logs := Json.stringify logs, output := Json.stringify output }
         else t,
         some ⟨r.id, r.agentId, logs, output, r.status, r.callback⟩) := by
  simp only [callbackTaskAttempt, hf, Bool.false_eq_true, if_false]
  rw [taskUpdate_found hr]
  simp [Json.parse_stringify]

theorem callbackTaskAttempt_pres (id : String) (logs output : Json)
    (fault : Nat → Bool) :
    ∀ (n : Nat) (db : TaskTable),
      (callbackTaskAttempt id logs output fault n db).2 = none →
      (callbackTaskAttempt id logs output fault n db).1 = db := by
  intro n db
  by_cases hf : fault n
  · rw [callbackTaskAttempt_fault id logs output fault n db hf]
    intro _; rfl
  · match hr : taskFindUnique db id with
    | none =>
      rw [callbackTaskAttempt_notFound id logs output fault n db hr]
      intro _; rfl
    | some r =>
      rw [callbackTaskAttempt_found id logs output fault n db r
        (by simpa using hf) hr]
      intro h
      simp at h

/-- Claim C2: the delivery retry loop of the callback handler performs at most 5
attempts, sleeps the fixed 2000 ms (no backoff) between consecutive attempts,
always produces a response (200 or 500), and after exhausting all 5 attempts
answers 500 instead of dropping the delivery silently. The trace equations
are total, witnessing termination. -/
theorem callback_retry_bounded (db : TaskTable) (id : String) (logs output : Json)
    (fault : Nat → Bool) :
    (∃ k, (k = 5 ∧ (callbackTaskHandler db id logs output fault).status = 500 ∧
            (callbackTaskHandler db id logs output fault).events = deliveryTrace 0 5) ∨
          (k < 5 ∧ (callbackTaskHandler db id logs output fault).status = 200 ∧
            (callbackTaskHandler db id logs output fault).events
              = deliveryTrace 0 k ++ [.attempt k])) ∧
    countAttempts (callbackTaskHandler db id logs output fault).events ≤ 5 ∧
    ((callbackTaskHandler db id logs output fault).status = 200 ∨
      (callbackTaskHandler db id logs output fault).status = 500) ∧
    (∀ ms, DeliveryEvent.sleep ms ∈ (callbackTaskHandler db id logs output fault).events →
      ms = 2000) := by
  have hh : callbackTaskHandler db id logs output fault
      = retryLoop (callbackTaskAttempt id logs output fault) 5 0 db := rfl
  obtain ⟨k, hk⟩ := retryLoop_char (callbackTaskAttempt id logs output fault)
    (callbackTaskAttempt_pres id logs output fault) 5 0 db
  simp only [Nat.zero_add] at hk
  rcases hk with ⟨hk5, heq⟩ | ⟨hk5, db2, t, hatt, heq⟩
  · refine ⟨⟨5, Or.inl ⟨rfl, ?_, ?_⟩⟩, ?_, Or.inr ?_, ?_⟩
    · rw [hh, heq]
    · rw [hh, heq]
    · rw [hh, heq]
      simp [countAttempts_trace]
    · rw [hh, heq]
    · intro ms hms
      rw [hh, heq] at hms
      exact trace_sleep_ms 0 5 ms hms
  · refine ⟨⟨k, Or.inr ⟨hk5, ?_, ?_⟩⟩, ?_, Or.inl ?_, ?_⟩
    · rw [hh, heq]
    · rw [hh, heq]
    · rw [hh, heq]
      show countAttempts (deliveryTrace 0 k ++ [.attempt k]) ≤ 5
      rw [countAttempts_append, countAttempts_trace]
      simp [countAttempts]
      omega
    · rw [hh, heq]
    · intro ms hms
      rw [hh, heq] at hms
      show ms = 2000
      simp only [List.mem_append, List.mem_singleton] at hms
      rcases hms with hms | hms
      · exact trace_sleep_ms 0 k ms hms
      · cases hms

/-- Witness for `callback_retry_bounded` at a concrete input. -/
theorem callback_retry_bounded_witness :
    (callbackTaskHandler [] "t1" (.arr []) (.obj []) (fun _ => false)).status = 200 ∨
    (callbackTaskHandler [] "t1" (.arr []) (.obj []) (fun _ => false)).status = 500 :=
  (callback_retry_bounded [] "t1" (.arr []) (.obj []) (fun _ => false)).2.2.1

/-- Claim C6: when every one of the five attempts fails (the row is absent, or a
transient fault hits each attempt), the handler leaves the table exactly as it
was — no partial write, the terminal status of every stored task untouched —
and reports the failure with a 500 response. -/
theorem callback_exhausted_unchanged (db : TaskTable) (id : String)
    (logs output : Json) (fault : Nat → Bool)
    (hall : ∀ n, n < 5 → fault n = true ∨ taskFindUnique db id = none) :
    (callbackTaskHandler db id logs output fault).db = db ∧
    (callbackTaskHandler db id logs output fault).status = 500 := by
  have hfail : ∀ n, 0 ≤ n → n < 0 + 5 →
      callbackTaskAttempt id logs output fault n db = (db, none) := by
    intro n _ hn
    rcases hall n (by omega) with hf | hr
    · exact callbackTaskAttempt_fault id logs output fault n db hf
    · exact callbackTaskAttempt_notFound id logs output fault n db hr
  have h := retryLoop_fail (callbackTaskAttempt id logs output fault) 5 0 db hfail
  have hh : callbackTaskHandler db id logs output fault
      = retryLoop (callbackTaskAttempt id logs output fault) 5 0 db := rfl
  rw [hh, h]
  exact ⟨rfl, rfl⟩

/-- Witness for `callback_exhausted_unchanged`: an empty table has no row for
the delivered id, so every attempt fails and the table is returned unchanged
with a 500. -/
theorem callback_exhausted_unchanged_witness :
    (callbackTaskHandler [] "t9" (.arr []) (.obj []) (fun _ => false)).db = [] ∧
    (callbackTaskHandler [] "t9" (.arr []) (.obj []) (fun _ => false)).status = 500 :=
  callback_exhausted_unchanged [] "t9" (.arr []) (.obj []) (fun _ => false)
    (fun _ _ => Or.inr rfl)

/-! ## Behaviour of the upsert-variant callback attempt -/

/-- Every attempt of the upsert-variant handler fails without touching the
table: the `create` data of its `prisma.task.upsert` call omits the required
`agentId` and `status` columns, and the client rejects the malformed argument
object eagerly — row present or not — so the `try` body throws before any
write happens (a transient fault or a non-string `output` value fails the
attempt just the same). -/
theorem callbackUpsertAttempt_rejected (id : String) (logs : Json)
    (output : JsValue) (fault : Nat → Bool) (n : Nat) (db : TaskTable) :
    callbackUpsertAttempt id logs output fault n db = (db, none) := by
  by_cases hf : fault n
  · simp [callbackUpsertAttempt, hf]
  · simp only [callbackUpsertAttempt, hf, Bool.false_eq_true, if_false]
    cases output with
    | undef => rfl
    | nan => rfl
    | strObject s => rfl
    | prim j => cases j <;> rfl

/-- Claim C1 (code bug): the spec requires the receiving side to treat a
delivery as an idempotent upsert keyed by Task id — create-if-absent, else
overwrite — and the handler indeed calls `prisma.task.upsert` with matching
`create`/`update` arms, but the `create` data omits the required `agentId`
and `status` columns, so the client rejects every call eagerly. Each
delivery — first or repeated, row present or not — writes nothing, exhausts
its five attempts, and answers 500: no create-if-absent, no overwrite, and
(vacuously) never a duplicate record. The final conjunct evaluates the
handler at the failing input: an existing row `t1` receiving a well-formed
repeated delivery is left untouched with a 500 instead of being upserted. -/
theorem upsert_delivery_always_rejected (db : TaskTable) (id : String)
    (logs : Json) (output : JsValue) (fault : Nat → Bool) :
    (callbackUpsertHandler db id logs output fault).db = db ∧
    (callbackUpsertHandler db id logs output fault).status = 500 ∧
    (callbackUpsertHandler db id logs output fault).body = none ∧
    (callbackUpsertHandler db id logs output fault).events = deliveryTrace 0 5 ∧
    (callbackUpsertHandler [⟨"t1", "a1", "[]", "{}", .running, none⟩] "t1"
        (.arr [.str "done"]) (.prim (.str "{}")) (fun _ => false)).db
      = [⟨"t1", "a1", "[]", "{}", .running, none⟩] ∧
    (callbackUpsertHandler [⟨"t1", "a1", "[]", "{}", .running, none⟩] "t1"
        (.arr [.str "done"]) (.prim (.str "{}")) (fun _ => false)).status = 500 := by
  have hh : callbackUpsertHandler db id logs output fault
      = retryLoop (callbackUpsertAttempt id logs (normalizeOutput output) fault)
          5 0 db := rfl
  have hfail : ∀ n, 0 ≤ n → n < 0 + 5 →
      callbackUpsertAttempt id logs (normalizeOutput output) fault n db
        = (db, none) :=
    fun n _ _ => callbackUpsertAttempt_rejected id logs _ fault n db
  have h := retryLoop_fail
    (callbackUpsertAttempt id logs (normalizeOutput output) fault) 5 0 db hfail
  rw [hh, h]
  exact ⟨rfl, rfl, rfl, rfl, rfl, rfl⟩

/-! ## Behaviour of the `agent/index.js` callback variant -/

/-- `fireCallback` issues exactly one POST, whatever the transport does: the
function body contains a single `fetch` and no loop. -/
theorem fireCallback_requests (url : String) (t : TaskView) (o : FetchOutcome) :
    (fireCallback url t o).requests = [⟨url, t⟩] := by
  cases o with
  | netError => rfl
  | response st body =>
    simp only [fireCallback]
    by_cases hok : resOk st <;> cases hp : Json.parse body <;> simp [hok, hp]

theorem agentCallbackAttempt_ok (id : String) (logs output statusJ : Json)
    (po : FetchOutcome) (fault : Nat → Bool) (n : Nat) (db : TaskTable)
    (st : Status) (r : TaskRecord)
    (hf : fault n = false) (hst : Status.ofJson statusJ = some st)
    (hr : taskFindUnique db id = some r) :
    agentCallbackAttempt id logs output statusJ po fault n db
      = (db.map fun t => if t.id == id then
           { t with status := st, logs := Json.stringify logs,
                    output := Json.stringify output } else t,
         some (⟨r.id, r.agentId, logs, output, st, r.callback⟩,
           (if callbackTruthy r.callback then
             (fireCallback (r.callback.getD "")
               ⟨r.id, r.agentId, logs, output, st, r.callback⟩ po).requests
            else []),
           (if callbackTruthy r.callback then
             (fireCallback (r.callback.getD "")
               ⟨r.id, r.agentId, logs, output, st, r.callback⟩ po).consoleErrors
            else []))) := by
  simp only [agentCallbackAttempt, hf, Bool.false_eq_true, if_false, hst]
  rw [taskUpdate_found hr]
  by_cases hcb : callbackTruthy r.callback <;>
    simp [Json.parse_stringify, hcb]

/-- Claim C4 (amended): after a successful terminal update, the handler POSTs the
full updated Task (id, logs, output, status as delivered) to the recorded
callback URL exactly when the stored `callback` is truthy — non-null *and*
nonempty; for a null (or empty-string) callback no outward POST is made. -/
theorem agent_callback_fires_iff (db : TaskTable) (id : String)
    (logs output statusJ : Json) (po : FetchOutcome) (fault : Nat → Bool)
    (st : Status) (r : TaskRecord)
    (hf : fault 0 = false) (hst : Status.ofJson statusJ = some st)
    (hr : taskFindUnique db id = some r) :
    (agentCallbackHandler db id logs output statusJ po fault).status = 200 ∧
    ∃ reqs errs,
      (agentCallbackHandler db id logs output statusJ po fault).body
        = some (⟨r.id, r.agentId, logs, output, st, r.callback⟩, reqs, errs) ∧
      reqs = (if callbackTruthy r.callback then
          [⟨r.callback.getD "", ⟨r.id, r.agentId, logs, output, st, r.callback⟩⟩]
        else []) := by
  have hatt := agentCallbackAttempt_ok id logs output statusJ po fault 0 db st r hf hst hr
  have h := retryLoop_ok (agentCallbackAttempt id logs output statusJ po fault)
    4 0 db _ _ hatt
  have hh : agentCallbackHandler db id logs output statusJ po fault
      = retryLoop (agentCallbackAttempt id logs output statusJ po fault) 5 0 db := rfl
  rw [hh, h]
  refine ⟨rfl, _, _, rfl, ?_⟩
  by_cases hcb : callbackTruthy r.callback
  · simp [hcb, fireCallback_requests]
  · simp [hcb]

/-- Witness for `agent_callback_fires_iff` at a concrete input. -/
theorem agent_callback_fires_iff_witness :
    (agentCallbackHandler [⟨"t1", "a1", "x", "y", .running, some "http://cb"⟩] "t1"
        (.arr []) (.obj []) (.str "complete") (.response 200 "{}")
        (fun _ => false)).status = 200 ∧
    ∃ reqs errs,
      (agentCallbackHandler [⟨"t1", "a1", "x", "y", .running, some "http://cb"⟩] "t1"
          (.arr []) (.obj []) (.str "complete") (.response 200 "{}")
          (fun _ => false)).body
        = some (⟨"t1", "a1", .arr [], .obj [], .complete, some "http://cb"⟩, reqs, errs) ∧
      reqs = (if callbackTruthy (some "http://cb") then
          [⟨(some "http://cb").getD "",
            ⟨"t1", "a1", .arr [], .obj [], .complete, some "http://cb"⟩⟩]
        else []) :=
  agent_callback_fires_iff [⟨"t1", "a1", "x", "y", .running, some "http://cb"⟩] "t1"
    (.arr []) (.obj []) (.str "complete") (.response 200 "{}") (fun _ => false)
    .complete ⟨"t1", "a1", "x", "y", .running, some "http://cb"⟩ rfl rfl rfl

/-- Claim C4, counterexample to the claim as stated: the stored callback
`some ""` is non-null, the terminal update succeeds (200), yet no POST is
made — the code checks JS truthiness, and the empty string is falsy. -/
theorem agent_callback_empty_string_cex :
    (agentCallbackHandler [⟨"t1", "a1", "x", "y", .running, some ""⟩] "t1"
        (.arr []) (.obj []) (.str "complete") (.response 200 "{}")
        (fun _ => false)).status = 200 ∧
    (agentCallbackHandler [⟨"t1", "a1", "x", "y", .running, some ""⟩] "t1"
        (.arr []) (.obj []) (.str "complete") (.response 200 "{}")
        (fun _ => false)).body
      = some (⟨"t1", "a1", .arr [], .obj [], .complete, some ""⟩, [], []) ∧
    (some "" ≠ (none : Option String)) := by
  refine ⟨rfl, rfl, by decide⟩

/-- Claim C5 (amended): a transport failure of the outbound callback POST is not
retried — the POST is attempted exactly once — the error is surfaced on the
console log, and neither the stored Task (status just written included) nor
the 200 response already determined by the handler changes. -/
theorem agent_callback_failure_isolated (db : TaskTable) (id : String)
    (logs output statusJ : Json) (fault : Nat → Bool) (st : Status)
    (r : TaskRecord) (url : String)
    (hf : fault 0 = false) (hst : Status.ofJson statusJ = some st)
    (hr : taskFindUnique db id = some r)
    (hcb : r.callback = some url) (hurl : url ≠ "") :
    (agentCallbackHandler db id logs output statusJ .netError fault).status = 200 ∧
    (agentCallbackHandler db id logs output statusJ .netError fault).db
      = db.map (fun t => if t.id == id then
          { t with status := st, logs := Json.stringify logs,
                   output := Json.stringify output } else t) ∧
    (agentCallbackHandler db id logs output statusJ .netError fault).body
      = some (⟨r.id, r.agentId, logs, output, st, r.callback⟩,
          [⟨url, ⟨r.id, r.agentId, logs, output, st, r.callback⟩⟩],
          [JsError.network]) := by
  have hatt := agentCallbackAttempt_ok id logs output statusJ .netError fault
    0 db st r hf hst hr
  have h := retryLoop_ok (agentCallbackAttempt id logs output statusJ .netError fault)
    4 0 db _ _ hatt
  have hh : agentCallbackHandler db id logs output statusJ .netError fault
      = retryLoop (agentCallbackAttempt id logs output statusJ .netError fault) 5 0 db := rfl
  have hcbt : callbackTruthy r.callback = true := by
    rw [hcb]
    simp [callbackTruthy, hurl]
  rw [hh, h]
  refine ⟨rfl, rfl, ?_⟩
  simp [hcbt, hcb, fireCallback, callbackTruthy, hurl]

/-- Witness for `agent_callback_failure_isolated` at a concrete input. -/
theorem agent_callback_failure_isolated_witness :
    (agentCallbackHandler [⟨"t2", "a1", "x", "y", .running, some "http://cb"⟩] "t2"
        (.arr []) (.obj []) (.str "error") .netError (fun _ => false)).status = 200 ∧
    (agentCallbackHandler [⟨"t2", "a1", "x", "y", .running, some "http://cb"⟩] "t2"
        (.arr []) (.obj []) (.str "error") .netError (fun _ => false)).db
      = [⟨"t2", "a1", "x", "y", .running, some "http://cb"⟩].map
          (fun t => if t.id == "t2" then
            { t with status := .error, logs := Json.stringify (.arr []),
                     output := Json.stringify (.obj []) } else t) ∧
    (agentCallbackHandler [⟨"t2", "a1", "x", "y", .running, some "http://cb"⟩] "t2"
        (.arr []) (.obj []) (.str "error") .netError (fun _ => false)).body
      = some (⟨"t2", "a1", .arr [], .obj [], .error, some "http://cb"⟩,
          [⟨"http://cb", ⟨"t2", "a1", .arr [], .obj [], .error, some "http://cb"⟩⟩],
          [JsError.network]) :=
  agent_callback_failure_isolated [⟨"t2", "a1", "x", "y", .running, some "http://cb"⟩]
    "t2" (.arr []) (.obj []) (.str "error") (fun _ => false) .error
    ⟨"t2", "a1", "x", "y", .running, some "http://cb"⟩ "http://cb"
    rfl rfl rfl rfl (by decide)

/-- Claim C5, counterexample to "retried with bounded attempts": on a transport
failure exactly one outbound POST is recorded — the failed POST is never
attempted again (and the handler still answers 200 with the stored update in
place). -/
theorem agent_callback_no_retry_cex :
    (agentCallbackHandler [⟨"t3", "a1", "x", "y", .running, some "http://cb"⟩] "t3"
        (.arr []) (.obj []) (.str "complete") .netError (fun _ => false)).body
      = some (⟨"t3", "a1", .arr [], .obj [], .complete, some "http://cb"⟩,
          [⟨"http://cb", ⟨"t3", "a1", .arr [], .obj [], .complete, some "http://cb"⟩⟩],
          [JsError.network]) ∧
    (agentCallbackHandler [⟨"t3", "a1", "x", "y", .running, some "http://cb"⟩] "t3"
        (.arr []) (.obj []) (.str "complete") .netError (fun _ => false)).status
      = 200 := by
  exact ⟨rfl, rfl⟩

/-! ## Behaviour of the variable seed (`populateVariables`) -/

theorem find?_overwrite (k : String) (v : Json) :
    ∀ (vars : List (String × Json)), (vars.any fun p => p.1 == k) = true →
      lookupVar (vars.map fun p => if p.1 == k then (p.1, v) else p) k = some v := by
  intro vars
  induction vars with
  | nil => intro h; simp at h
  | cons p t ih =>
    intro h
    by_cases hp : (p.1 == k) = true
    · simp [lookupVar, List.find?, hp]
    · have ht : (t.any fun p => p.1 == k) = true := by
        simp only [List.any_cons] at h
        simpa [hp] using h
      have hrec := ih ht
      simp only [lookupVar, List.map_cons] at hrec ⊢
      rw [List.find?]
      simp only [hp, if_neg (by simp [hp] : ¬(p.1 == k) = true)]
      simpa [hp] using hrec

theorem find?_append {α : Type} (p : α → Bool) :
    ∀ (l1 l2 : List α), (l1 ++ l2).find? p
      = ((l1.find? p).orElse fun _ => l2.find? p) := by
  intro l1 l2
  induction l1 with
  | nil => rfl
  | cons a t ih =>
    simp only [List.cons_append, List.find?]
    cases h : p a with
    | true => rfl
    | false => simpa using ih

theorem lookupVar_setVar_self (vars : List (String × Json)) (k : String) (v : Json) :
    lookupVar (setVar vars k v) k = some v := by
  unfold setVar
  by_cases h : (vars.any fun p => p.1 == k) = true
  · rw [if_pos h]
    exact find?_overwrite k v vars h
  · rw [if_neg h]
    unfold lookupVar
    simp only [Bool.not_eq_true] at h
    rw [find?_append_right _ _ h]
    simp [List.find?]

theorem lookupVar_setVar_other (vars : List (String × Json)) (k k2 : String)
    (v : Json) (hne : k2 ≠ k) :
    lookupVar (setVar vars k2 v) k = lookupVar vars k := by
  have hk2 : (k2 == k) = false := by simp [hne]
  unfold setVar
  by_cases h : (vars.any fun p => p.1 == k2) = true
  · rw [if_pos h]
    clear h
    induction vars with
    | nil => rfl
    | cons p t ih =>
      simp only [lookupVar, List.map_cons, List.find?] at ih ⊢
      by_cases hp2 : (p.1 == k2) = true
      · have hp2' : p.1 = k2 := by simpa using hp2
        have hpk : (p.1 == k) = false := by simp [hp2', hne]
        simp only [if_pos hp2, List.find?, hpk]
        simpa using ih
      · simp only [if_neg hp2, List.find?]
        cases hpk : (p.1 == k) with
        | true => rfl
        | false => simpa using ih
  · rw [if_neg h]
    unfold lookupVar
    rw [find?_append]
    cases hv : vars.find? fun p => p.1 == k with
    | some q => rfl
    | none => simp [List.find?, hk2]

theorem populate_not_mem :
    ∀ (input acc : List (String × Json)) (k : String),
      k ∉ input.map Prod.fst →
      lookupVar (populateVariables acc input) k = lookupVar acc k := by
  intro input
  induction input with
  | nil => intro acc k _; rfl
  | cons kv t ih =>
    intro acc k hk
    simp only [List.map_cons, List.mem_cons, not_or] at hk
    show lookupVar (populateVariables (setVar acc kv.1 kv.2) t) k = lookupVar acc k
    rw [ih _ k hk.2, lookupVar_setVar_other _ _ _ _ (fun he => hk.1 he.symm)]

theorem populate_mem :
    ∀ (input acc : List (String × Json)) (k : String) (v : Json),
      (input.map Prod.fst).Nodup → (k, v) ∈ input →
      lookupVar (populateVariables acc input) k = some v := by
  intro input
  induction input with
  | nil => intro acc k v _ hmem; cases hmem
  | cons kv t ih =>
    intro acc k v hnodup hmem
    simp only [List.map_cons, List.nodup_cons] at hnodup
    rcases List.mem_cons.mp hmem with rfl | hmem2
    · have hk : k ∉ t.map Prod.fst := hnodup.1
      show lookupVar (populateVariables (setVar acc k v) t) k = some v
      rw [populate_not_mem t _ k hk, lookupVar_setVar_self]
    · exact ih (setVar acc kv.1 kv.2) k v hnodup.2 hmem2

/-- Claim C3: the variable seed the workflow-run handler sends to the engine maps
every key of the caller input to the caller value — the input overrides
any stored agent default for the same key — and every key present only in the
stored agent variables keeps its stored default. -/
theorem run_input_overrides (stored input : List (String × Json))
    (hnodup : (input.map Prod.fst).Nodup) :
    (∀ k v, (k, v) ∈ input →
      lookupVar (populateVariables stored input) k = some v) ∧
    (∀ k, k ∉ input.map Prod.fst →
      lookupVar (populateVariables stored input) k = lookupVar stored k) :=
  ⟨fun k v hmem => populate_mem input stored k v hnodup hmem,
   fun k hk => populate_not_mem input stored k hk⟩

/-- Witness for `run_input_overrides`: input `{a ↦ 9, c ↦ 3}` over stored
`{a ↦ 1, b ↦ 2}` seeds `a` with the caller value 9 while `b` keeps its default. -/
theorem run_input_overrides_witness :
    lookupVar (populateVariables [("a", .num 1), ("b", .num 2)]
      [("a", .num 9), ("c", .num 3)]) "a" = some (.num 9) ∧
    lookupVar (populateVariables [("a", .num 1), ("b", .num 2)]
      [("a", .num 9), ("c", .num 3)]) "b"
      = lookupVar [("a", .num 1), ("b", .num 2)] "b" :=
  ⟨(run_input_overrides [("a", .num 1), ("b", .num 2)]
      [("a", .num 9), ("c", .num 3)] (by simp)).1 "a" (.num 9) (by simp),
   (run_input_overrides [("a", .num 1), ("b", .num 2)]
      [("a", .num 9), ("c", .num 3)] (by simp)).2 "b" (by simp)⟩

/-- Claim C7: the `status` column is the SQL enum `Status` — the status of every stored task
is one of `running`, `complete`, `error`, and the client-side enum
validation accepts no other JSON value on write. -/
theorem status_enum_closed :
    (∀ t : TaskRecord,
      t.status = .running ∨ t.status = .complete ∨ t.status = .error) ∧
    (∀ j : Json, Status.ofJson j = none ∨
      j = .str "running" ∨ j = .str "complete" ∨ j = .str "error") := by
  constructor
  · intro t
    rcases t with ⟨_, _, _, _, st, _⟩
    cases st
    · exact Or.inl rfl
    · exact Or.inr (Or.inl rfl)
    · exact Or.inr (Or.inr rfl)
  · intro j
    match hj : Status.ofJson j with
    | none => exact Or.inl rfl
    | some st =>
      unfold Status.ofJson at hj
      split at hj
      · exact Or.inr (Or.inl rfl)
      · exact Or.inr (Or.inr (Or.inl rfl))
      · exact Or.inr (Or.inr (Or.inr rfl))
      · cases hj

/-- Claim C8: a task persisted by the workflow-run handler (logs and output
stored with `JSON.stringify`) is returned by a subsequent GET with logs and
output structurally equal to the original engine values: `JSON.parse` after
`JSON.stringify` round-trips them exactly. -/
theorem persisted_task_roundtrip (db : TaskTable) (agentId id : String)
    (st : Status) (logs output : Json) (db2 : TaskTable) (rec : TaskRecord)
    (h : runWorkflowPersist db agentId id st logs output = .ok (db2, rec)) :
    getTaskHandler db2 id = .found ⟨id, agentId, logs, output, st, none⟩ := by
  unfold runWorkflowPersist taskCreate at h
  split at h
  · cases h
  · rename_i hany
    have h2 : (Except.ok
        (db ++ [{ id := id, agentId := agentId, logs := Json.stringify logs,
                  output := Json.stringify output, status := st,
                  callback := none : TaskRecord }],
         { id := id, agentId := agentId, logs := Json.stringify logs,
           output := Json.stringify output, status := st,
           callback := none : TaskRecord }) : Except Unit (TaskTable × TaskRecord))
        = .ok (db2, rec) := h
    injection h2 with h2
    injection h2 with h21 h22
    subst h21
    unfold getTaskHandler taskFindUnique
    rw [find?_append_right _ _ (by simpa using hany)]
    simp [List.find?, Json.parse_stringify]

/-- Witness for `persisted_task_roundtrip` at a concrete run. -/
theorem persisted_task_roundtrip_witness :
    getTaskHandler [⟨"t1", "a1", Json.stringify (.arr [.str "hello"]),
        Json.stringify (.obj [("k", .num 42)]), .complete, none⟩] "t1"
      = .found ⟨"t1", "a1", .arr [.str "hello"], .obj [("k", .num 42)],
          .complete, none⟩ :=
  persisted_task_roundtrip [] "a1" "t1" .complete (.arr [.str "hello"])
    (.obj [("k", .num 42)])
    [⟨"t1", "a1", Json.stringify (.arr [.str "hello"]),
      Json.stringify (.obj [("k", .num 42)]), .complete, none⟩]
    ⟨"t1", "a1", Json.stringify (.arr [.str "hello"]),
      Json.stringify (.obj [("k", .num 42)]), .complete, none⟩ rfl

/-- Claim C9: `runAgent` resolves for every outcome of the engine call — it
returns either the parsed task or an `Error` value, never throwing — and the
result is a non-`Error` exactly when the engine answered 2xx with a body that
parses as JSON; callers detect failure solely through `instanceof Error`. -/
theorem runAgent_total (outcome : FetchOutcome) :
    ((∃ j, runAgent outcome = .data j) ∨ (∃ e, runAgent outcome = .err e)) ∧
    ((runAgent outcome).isError = false ↔
      ∃ st body j, outcome = .response st body ∧ resOk st = true ∧
        Json.parse body = some j) := by
  cases outcome with
  | netError =>
    refine ⟨Or.inr ⟨.network, rfl⟩, ?_, ?_⟩
    · intro h
      simp [runAgent, RunAgentResult.isError] at h
    · rintro ⟨st, body, j, h, _, _⟩
      cases h
  | response st body =>
    by_cases hok : resOk st = true
    · cases hp : Json.parse body with
      | some j =>
        have hr : runAgent (.response st body) = .data j := by
          simp [runAgent, hok, hp]
        refine ⟨Or.inl ⟨j, hr⟩, ?_, ?_⟩
        · intro _
          exact ⟨st, body, j, rfl, hok, hp⟩
        · intro _
          rw [hr]
          rfl
      | none =>
        have hr : runAgent (.response st body) = .err .jsonParse := by
          simp [runAgent, hok, hp]
        refine ⟨Or.inr ⟨_, hr⟩, ?_, ?_⟩
        · intro h
          rw [hr] at h
          simp [RunAgentResult.isError] at h
        · rintro ⟨st2, body2, j, heq, hok2, hp2⟩
          injection heq with h1 h2
          subst h1
          subst h2
          rw [hp] at hp2
          cases hp2
    · have hr : ∃ e, runAgent (.response st body) = .err e := by
        cases hp : Json.parse body with
        | none => exact ⟨.jsonParse, by simp [runAgent, hok, hp]⟩
        | some j => exact ⟨.httpError st, by simp [runAgent, hok, hp]⟩
      obtain ⟨e, hre⟩ := hr
      refine ⟨Or.inr ⟨e, hre⟩, ?_, ?_⟩
      · intro h
        rw [hre] at h
        simp [RunAgentResult.isError] at h
      · rintro ⟨st2, body2, j, heq, hok2, hp2⟩
        injection heq with h1 h2
        subst h1
        exact absurd hok2 hok

/-- Witness for `runAgent_total` at a concrete outcome. -/
theorem runAgent_total_witness :
    ((∃ j, runAgent (.response 200 "{}") = .data j) ∨
     (∃ e, runAgent (.response 200 "{}") = .err e)) ∧
    ((runAgent (.response 200 "{}")).isError = false ↔
      ∃ st body j, (FetchOutcome.response 200 "{}") = .response st body ∧
        resOk st = true ∧ Json.parse body = some j) :=
  runAgent_total (.response 200 "{}")

/-- Claim C10: `!output instanceof String` parses as `(!output) instanceof
String`; `!output` is a primitive boolean and a primitive is never an
`instanceof` anything, so the guard is `false` for every runtime value, the
stringify-normalization branch is unreachable, and `output` reaches the upsert
exactly as received from the request body. -/
theorem upsert_guard_unreachable (output : JsValue) :
    upsertOutputGuard output = false ∧ normalizeOutput output = output ∧
    ∀ (db : TaskTable) (id : String) (logs : Json) (fault : Nat → Bool),
      callbackUpsertHandler db id logs output fault
        = retryLoop (callbackUpsertAttempt id logs output fault) 5 0 db := by
  refine ⟨rfl, rfl, ?_⟩
  intro db id logs fault
  rfl

end AAA
